import Mathlib

/-!
Shallow embedding of the resumable Postgres-to-Elasticsearch ETL pipeline
(`01_etl/states.py`, `01_etl/decorators.py`, `01_etl/loaders.py`,
`01_etl/main.py`).

Modelling conventions:
* `datetime` instants are modelled as `Nat`.  ISO-8601 strings are in an
  order-preserving bijection with the instants they denote, so the stored
  string `t.isoformat()` is represented by the constructor `Val.vStr`
  carrying the instant itself; `datetime.fromisoformat` is the projection
  back (`fromIso`), failing (`none` = Python exception) on a non-string.
* A JSON-serialisable checkpoint value is `Val`: a number (`vNat`, the
  in-run row offset) or an ISO timestamp string (`vStr`).
* The checkpoint mapping (a Python `dict`) is an association list with
  first-occurrence lookup, in-place replacement on update and key removal
  on pop - exactly the observable behaviour of `dict.update` / `dict.pop`.
* Fallible Python code (a raised exception) is `Option`/`Except`-valued.
-/

namespace Etl

/-- A JSON-serialisable checkpoint value: a number, or an ISO-8601
timestamp string represented by the instant it denotes. -/
inductive Val where
  | vNat (n : Nat)
  | vStr (t : Nat)
deriving DecidableEq, Repr

/-- The checkpoint mapping of `states.py` (a Python `dict[str, Any]`
round-tripped through one JSON document). -/
abbrev StateMap := List (String × Val)

/-- `datetime.min`, the zero watermark default in `main.py`. -/
def dtMin : Nat := 0

/-- Key `'saved_dt'` of `main.py` (`start_datetime_key`). -/
def sdtKey : String := "saved_dt"

/-- Key `'saved_rows'` of `main.py` (`offset_key`). -/
def srowsKey : String := "saved_rows"

/-- Lookup of a key in the mapping (first occurrence), `dict.__getitem__`
as an `Option`. -/
def stateLookup (m : StateMap) (k : String) : Option Val :=
  (m.find? (fun kv => kv.1 == k)).map (fun kv => kv.2)

/-- `State.set_state` key update: `self.state.update({key: value})`
replaces the value in place when the key is present, appends otherwise. -/
def setState : StateMap → String → Val → StateMap
  | [], k, v => [(k, v)]
  | (k', v') :: t, k, v =>
      if k' == k then (k, v) :: t else (k', v') :: setState t k v

/-- `State.clear_state` key removal: `self.state.pop(key, None)`. -/
def popState (m : StateMap) (k : String) : StateMap :=
  m.filter (fun kv => !(kv.1 == k))

/-- `State.get_state`: `self.state.get(key, default)`. -/
def getState (m : StateMap) (k : String) (d : Val) : Val :=
  (stateLookup m k).getD d

/-- `datetime.fromisoformat` applied to a checkpoint value: succeeds on a
stored ISO string, raises (`none`) on anything else. -/
def fromIso : Val → Option Nat
  | Val.vStr t => some t
  | Val.vNat _ => none

/-- Implicit coercion of the stored offset to a number: `offset` must be
usable in `offset += len(data)`, so a non-number raises (`none`). -/
def toNatVal : Val → Option Nat
  | Val.vNat n => some n
  | Val.vStr _ => none


/-- The durable checkpoint file as `FileStorage` can find it: absent
(`FileNotFoundError` on open), unreadable (an OS error on open or read),
holding content that `json.load` rejects (the `corrupt` payload records
the raw content; the empty file is `corrupt ""`), or holding one JSON
document encoding a mapping. -/
inductive FileState where
  | absent
  | unreadable
  | corrupt (content : String)
  | valid (m : StateMap)
deriving DecidableEq, Repr

/-- `FileStorage.retrieve_state`: `json.load` of the opened file, with
`except Exception: return {}` around the whole body. -/
def retrieveState : FileState → StateMap
  | FileState.valid m => m
  | _ => []

/-- `FileStorage.save_state` as the sequence of durable file states it
produces: `open(self.file_path, 'w')` first truncates the file to empty
content (which `json.load` rejects), then `json.dump(state, fp)` writes
the whole document.  Element `i` is the durable state once `i + 1` of
these primitive steps have reached the disk. -/
def saveStateSteps (s : StateMap) : List FileState :=
  [FileState.corrupt "", FileState.valid s]

/-- Durable file content when the process stops after exactly the first
`k` primitive steps of `save_state` have reached the disk (`k = 0`: the
save had no effect yet; `k = 2`: the save completed). -/
def durableAfterSave (old : FileState) (s : StateMap) (k : Nat) : FileState :=
  ((saveStateSteps s).take k).getLastD old

/-- `main.py` lines 19-23: build the `State` over the loaded checkpoint,
then read the watermark timestamp
(`dt.fromisoformat(state.get_state('saved_dt', dt.min.isoformat()))`) and
the in-run offset (`state.get_state('saved_rows', 0)`).  `none` models a
raised exception (ill-typed stored values). -/
def loadWatermark (fs : FileState) : Option (Nat × Nat) := do
  let st := retrieveState fs
  let t ← fromIso (getState st sdtKey (Val.vStr dtMin))
  let off ← toNatVal (getState st srowsKey (Val.vNat 0))
  pure (t, off)

/-- `main.py` lines 33-34, the run-completion epilogue, as the sequence of
checkpoint documents it persists: `state.set_state(start_datetime_key,
query_time.isoformat())` saves the updated mapping once, then
`state.clear_state(offset_key)` saves it a second time. -/
def completionSaves (m : StateMap) (queryTime : Nat) : List StateMap :=
  let m1 := setState m sdtKey (Val.vStr queryTime)
  let m2 := popState m1 srowsKey
  [m1, m2]

/-- Python exceptions as `decorators.py` distinguishes them: the
`psycopg2.Error` family (the only class its `except` clause catches), and
every other exception. -/
inductive PyErr where
  | psycopg (code : Nat)
  | otherExc (code : Nat)
deriving DecidableEq, Repr

/-- Python runtime values as far as the decorator can observe them;
`PyVal.none` is Python `None`, the value of a function body that ends
without a `return` statement. -/
inductive PyVal where
  | none
  | pnat (n : Nat)
  | pstr (s : String)
deriving DecidableEq, Repr

/-- `max_retries` of `decorators.py`. -/
def maxRetries : Nat := 10

/-- `initial_backoff` of `decorators.py`. -/
def initialBackoff : Nat := 2

/-- `max_backoff` of `decorators.py`. -/
def maxBackoff : Nat := 600

/-- Delay slept at the top of (retry) attempt `k ≥ 1`:
`min(max_backoff, initial_backoff * 2 ** (attempt - 1))`. -/
def sleepFor (attempt : Nat) : Nat :=
  min maxBackoff (initialBackoff * 2 ^ (attempt - 1))

instance : DecidableEq (Except PyErr PyVal) := fun x y =>
  match x, y with
  | Except.ok a, Except.ok b =>
      if h : a = b then isTrue (by rw [h])
      else isFalse (fun hh => h (by cases hh; rfl))
  | Except.error a, Except.error b =>
      if h : a = b then isTrue (by rw [h])
      else isFalse (fun hh => h (by cases hh; rfl))
  | Except.ok _, Except.error _ => isFalse (fun hh => Except.noConfusion hh)
  | Except.error _, Except.ok _ => isFalse (fun hh => Except.noConfusion hh)

/-- Observable outcome of one call of the decorated function: the delays
slept (in order), how many times the wrapped function was invoked, and
the returned value or escaping exception. -/
structure BackoffResult where
  sleeps : List Nat
  calls : Nat
  result : Except PyErr PyVal
deriving DecidableEq, Repr

/-- The `for attempt in range(max_retries + 1)` loop of the `wrapper`
inside `backoff`, processing the remaining attempt numbers.  The wrapped
call's outcome may differ between invocations, so `func` is indexed by
the attempt number.  At the top of each iteration the wrapper sleeps
(except at `attempt = 0`); on success the loop `break`s and the wrapper
falls off its body, returning Python `None`; a `psycopg2.Error` is
logged, and re-raised when `attempt == max_retries`, otherwise the loop
continues; any other exception propagates uncaught.  The `[]` case is
the `range` running out, after which the wrapper also returns `None`. -/
def backoffLoop (func : Nat → Except PyErr PyVal) :
    List Nat → BackoffResult
  | [] => ⟨[], 0, Except.ok PyVal.none⟩
  | attempt :: rest =>
      let pre : List Nat := if attempt = 0 then [] else [sleepFor attempt]
      match func attempt with
      | Except.ok _ => ⟨pre, 1, Except.ok PyVal.none⟩
      | Except.error (PyErr.psycopg c) =>
          if attempt = maxRetries then
            ⟨pre, 1, Except.error (PyErr.psycopg c)⟩
          else
            let r := backoffLoop func rest
            ⟨pre ++ r.sleeps, r.calls + 1, r.result⟩
      | Except.error (PyErr.otherExc c) =>
          ⟨pre, 1, Except.error (PyErr.otherExc c)⟩

/-- The decorated function: `wrapper` runs the loop over
`range(max_retries + 1)`. -/
def backoffWrapper (func : Nat → Except PyErr PyVal) : BackoffResult :=
  backoffLoop func (List.range (maxRetries + 1))

/-- One invocation of the body of `establish_connection` (open the
connection, then run `postgres_to_es` inside the `with` block): it either
fails while connecting, fails mid-run after the connection was
established (a cursor or query error escaping `postgres_to_es`), or
returns `None`.  The decorator observes only the escaping exception,
never which phase raised it. -/
inductive Phase where
  | connectFail (e : PyErr)
  | midRunFail (e : PyErr)
  | success
deriving DecidableEq, Repr

/-- `establish_connection` as the decorator calls it, over a `world`
giving the phase outcome of each successive invocation. -/
def establishConnectionCall (world : Nat → Phase) (call : Nat) :
    Except PyErr PyVal :=
  match world call with
  | Phase.connectFail e => Except.error e
  | Phase.midRunFail e => Except.error e
  | Phase.success => Except.ok PyVal.none

/-- A world in which the first connect-and-run invocation fails mid-run
with a `psycopg2` error (e.g. the connection drops during a page fetch)
and every later invocation completes. -/
def midRunRetryWorld : Nat → Phase := fun n =>
  if n = 0 then Phase.midRunFail (PyErr.psycopg 7) else Phase.success

section Pipeline

variable {Rec Doc : Type}

/-- `PostgreDb.read_data` page formation: `cursor.arraysize = page_size`
and `while data := self.cursor.fetchmany()`: each fetch returns the next
at-most-`psize` remaining rows of the server-side cursor; the loop stops
when a fetch returns zero rows (immediately when `psize = 0`, since
`fetchmany` then returns no rows). -/
def pagesOf (psize : Nat) (rows : List Rec) : List (List Rec) :=
  if hp : psize = 0 then []
  else if hr : rows.isEmpty then []
  else rows.take psize :: pagesOf psize (rows.drop psize)
termination_by rows.length
decreasing_by
  simp only [List.length_drop]
  have hr' : rows ≠ [] := by simpa [List.isEmpty_iff] using hr
  exact Nat.sub_lt (List.length_pos.mpr hr') (Nat.pos_of_ne_zero hp)

/-- `PostgreDb.read_data`: each fetched page is mapped row-by-row through
the record projection (`MoviesForEs(**{key: row[key] ...})`) before being
yielded. -/
def readData (psize : Nat) (mapper : Rec → Doc) (rows : List Rec) :
    List (List Doc) :=
  (pagesOf psize rows).map (List.map mapper)

/-- `PostgreDb.__init__` followed by `read_data`: `cursor.execute`
produces the filtered, ordered result set `rows`; `cursor.scroll(offset)`
(a server-side forward move on the named cursor) skips the first `offset`
rows; pages are then fetched from the remainder. -/
def postgreDbRun (psize offset : Nat) (mapper : Rec → Doc)
    (rows : List Rec) : List (List Doc) :=
  readData psize mapper (rows.drop offset)

/-- Modelled from the spec (section 6, search-index sink; section 4.5):
the `elasticsearch.helpers.bulk` batched-write primitive "returns
per-document success/failure rather than aborting the whole batch on a
single bad document".  `accept` is the sink's per-document verdict; the
call returns the sink contents with the accepted documents appended and
the list of per-document failures. -/
def bulkIndex (accept : Doc → Bool) (sink : List Doc) (page : List Doc) :
    List Doc × List Doc :=
  (sink ++ page.filter accept, page.filter (fun d => !(accept d)))

/-- `EsDb.bulk_write`: run the bulk call and, when the failure list is
non-empty, log it (`logging.error`); nothing is raised and nothing is
returned. -/
def bulkWrite (accept : Doc → Bool) (sink : List Doc) (page : List Doc)
    (logs : List (List Doc)) : List Doc × List (List Doc) :=
  let r := bulkIndex accept sink page
  (r.1, if r.2.isEmpty then logs else logs ++ [r.2])

/-- The failure list `bulk_write` logs for one page, if any. -/
def pageErrs (accept : Doc → Bool) (page : List Doc) :
    Option (List Doc) :=
  let errs := page.filter (fun d => !(accept d))
  if errs.isEmpty then none else some errs

/-- State carried by the page loop of `postgres_to_es`: the checkpoint
mapping as last persisted, the running `offset` local variable, the sink
contents and the error log. -/
structure LoopState (Doc : Type) where
  m : StateMap
  offset : Nat
  sink : List Doc
  logs : List (List Doc)

/-- One iteration of `for data in pg_getter.read_data()`:
`es_setter.bulk_write(data)`, then `offset += len(data)`, then
`state.set_state(offset_key, offset)` persists the new offset. -/
def pageStep (accept : Doc → Bool) (st : LoopState Doc)
    (page : List Doc) : LoopState Doc :=
  let w := bulkWrite accept st.sink page st.logs
  let off := st.offset + page.length
  { m := setState st.m srowsKey (Val.vNat off)
    offset := off
    sink := w.1
    logs := w.2 }

/-- Outcome of one invocation of `postgres_to_es`: the durable checkpoint
when it returned (or died), the sink contents, the error log, and the
pages handed to `bulk_write` in order. -/
structure RunResult (Doc : Type) where
  finalState : StateMap
  sink : List Doc
  logs : List (List Doc)
  sentPages : List (List Doc)

/-- `postgres_to_es`, parametrised by the page size, the source (a
function from the watermark timestamp to the filtered, ordered result
set of the extraction query), the record projection, the sink's
per-document verdict, `query_time = dt.utcnow()` captured before the
query is issued, the loaded checkpoint mapping and the initial sink
contents.  `none` models an exception escaping the run. -/
def postgresToEs (psize : Nat) (source : Nat → List Rec)
    (mapper : Rec → Doc) (accept : Doc → Bool) (now : Nat)
    (m0 : StateMap) (sink0 : List Doc) : Option (RunResult Doc) := do
  let t ← fromIso (getState m0 sdtKey (Val.vStr dtMin))
  let off ← toNatVal (getState m0 srowsKey (Val.vNat 0))
  let pgs := postgreDbRun psize off mapper (source t)
  let st := pgs.foldl (pageStep accept) ⟨m0, off, sink0, []⟩
  let m1 := setState st.m sdtKey (Val.vStr now)
  pure ⟨popState m1 srowsKey, st.sink, st.logs, pgs⟩

/-- `postgres_to_es` interrupted (the process dies) right after the
`N`-th iteration of the page loop has persisted its offset: only the
first `N` pages are processed and the completion epilogue never runs.
The result holds the durable checkpoint at the moment of death and what
had been delivered. -/
def postgresToEsInterrupted (psize : Nat) (source : Nat → List Rec)
    (mapper : Rec → Doc) (accept : Doc → Bool) (m0 : StateMap)
    (sink0 : List Doc) (N : Nat) : Option (RunResult Doc) := do
  let t ← fromIso (getState m0 sdtKey (Val.vStr dtMin))
  let off ← toNatVal (getState m0 srowsKey (Val.vNat 0))
  let pgs := (postgreDbRun psize off mapper (source t)).take N
  let st := pgs.foldl (pageStep accept) ⟨m0, off, sink0, []⟩
  pure ⟨st.m, st.sink, st.logs, pgs⟩

theorem stateLookup_setState_self (m : StateMap) (k : String) (v : Val) :
    stateLookup (setState m k v) k = some v := by
  induction m with
  | nil => simp [stateLookup, setState]
  | cons kv t ih =>
      obtain ⟨a, b⟩ := kv
      by_cases h : a = k
      · simp [stateLookup, setState, h]
      · have hb : (a == k) = false := by simp [h]
        simp only [setState, hb, Bool.false_eq_true, if_false]
        simp only [stateLookup, List.find?, hb] at ih ⊢
        exact ih

theorem stateLookup_setState_other (m : StateMap) (k k' : String) (v : Val)
    (h : k' ≠ k) : stateLookup (setState m k v) k' = stateLookup m k' := by
  have hkk : (k == k') = false := by simp; exact Ne.symm h
  induction m with
  | nil => simp [stateLookup, setState, hkk]
  | cons kv t ih =>
      obtain ⟨a, b⟩ := kv
      by_cases ha : a = k
      · simp [setState, stateLookup, List.find?, ha, hkk]
      · have hb : (a == k) = false := by simp [ha]
        by_cases ha' : a = k'
        · have hb' : (a == k') = true := by simp [ha']
          simp only [setState, hb, Bool.false_eq_true, if_false]
          simp [stateLookup, List.find?, hb']
        · have hb' : (a == k') = false := by simp [ha']
          simp only [setState, hb, Bool.false_eq_true, if_false]
          simp only [stateLookup, List.find?, hb'] at ih ⊢
          exact ih

theorem stateLookup_popState_self (m : StateMap) (k : String) :
    stateLookup (popState m k) k = none := by
  have hf : List.find? (fun kv => kv.1 == k)
      (m.filter (fun kv => !(kv.1 == k))) = none := by
    rw [List.find?_eq_none]
    intro x hx
    have hx' := List.of_mem_filter hx
    simp at hx' ⊢
    exact hx'
  simp [stateLookup, popState, hf]

theorem stateLookup_popState_other (m : StateMap) (k k' : String)
    (h : k' ≠ k) : stateLookup (popState m k) k' = stateLookup m k' := by
  induction m with
  | nil => simp [stateLookup, popState]
  | cons kv t ih =>
      obtain ⟨a, b⟩ := kv
      by_cases ha : a = k
      · have hbt : (a == k) = true := by simp [ha]
        have hb' : (a == k') = false := by simp [ha]; exact Ne.symm h
        simp only [popState, List.filter_cons, hbt, Bool.not_true,
          Bool.false_eq_true, if_false]
        have hrhs : stateLookup ((a, b) :: t) k' = stateLookup t k' := by
          simp [stateLookup, List.find?, hb']
        rw [hrhs]
        simpa only [popState] using ih
      · have hb : (a == k) = false := by simp [ha]
        by_cases ha' : a = k'
        · have hb' : (a == k') = true := by simp [ha']
          simp only [popState, List.filter_cons, hb, Bool.not_false, if_true]
          simp [stateLookup, List.find?, hb']
        · have hb' : (a == k') = false := by simp [ha']
          simp only [popState, List.filter_cons, hb, Bool.not_false, if_true]
          simp only [stateLookup, List.find?, hb']
          simpa only [popState, stateLookup] using ih

theorem getState_setState_self (m : StateMap) (k : String) (v d : Val) :
    getState (setState m k v) k d = v := by
  simp [getState, stateLookup_setState_self]

theorem getState_setState_other (m : StateMap) (k k' : String) (v d : Val)
    (h : k' ≠ k) : getState (setState m k v) k' d = getState m k' d := by
  simp [getState, stateLookup_setState_other m k k' v h]

theorem sdtKey_ne_srowsKey : sdtKey ≠ srowsKey := by decide

theorem pagesOf_nil (psize : Nat) : pagesOf psize ([] : List Rec) = [] := by
  rw [pagesOf]
  simp

theorem pagesOf_cons (psize : Nat) (rows : List Rec) (hp : psize ≠ 0)
    (hr : rows ≠ []) :
    pagesOf psize rows
      = rows.take psize :: pagesOf psize (rows.drop psize) := by
  rw [pagesOf, dif_neg hp, dif_neg (by simp [List.isEmpty_iff]; exact hr)]

theorem pagesOf_flatten_aux (psize : Nat) (hp : psize ≠ 0) :
    ∀ (n : Nat) (rows : List Rec), rows.length ≤ n →
      (pagesOf psize rows).flatten = rows := by
  intro n
  induction n with
  | zero =>
      intro rows hr
      have hnil : rows = [] := List.eq_nil_of_length_eq_zero (Nat.le_zero.mp hr)
      simp [hnil, pagesOf_nil]
  | succ n ih =>
      intro rows hr
      by_cases hrow : rows = []
      · simp [hrow, pagesOf_nil]
      · rw [pagesOf_cons psize rows hp hrow, List.flatten_cons,
          ih (rows.drop psize)
            (by simp only [List.length_drop]; omega)]
        exact List.take_append_drop psize rows

theorem pagesOf_flatten (psize : Nat) (hp : psize ≠ 0) (rows : List Rec) :
    (pagesOf psize rows).flatten = rows :=
  pagesOf_flatten_aux psize hp rows.length rows le_rfl

theorem pagesOf_mem_aux (psize : Nat) (hp : psize ≠ 0) :
    ∀ (n : Nat) (rows : List Rec) (p : List Rec), rows.length ≤ n →
      p ∈ pagesOf psize rows → p.length ≤ psize ∧ p ≠ [] := by
  intro n
  induction n with
  | zero =>
      intro rows p hr hm
      have hnil : rows = [] := List.eq_nil_of_length_eq_zero (Nat.le_zero.mp hr)
      rw [hnil, pagesOf_nil] at hm
      cases hm
  | succ n ih =>
      intro rows p hr hm
      by_cases hrow : rows = []
      · rw [hrow, pagesOf_nil] at hm
        cases hm
      · rw [pagesOf_cons psize rows hp hrow] at hm
        rcases List.mem_cons.mp hm with h | h
        · subst h
          constructor
          · exact List.length_take_le psize rows
          · intro hnil
            have hlen := congrArg List.length hnil
            have hr0 : rows.length ≠ 0 := fun h0 =>
              hrow (List.eq_nil_of_length_eq_zero h0)
            simp only [List.length_take, List.length_nil] at hlen
            omega
        · exact ih (rows.drop psize) p
            (by simp only [List.length_drop]; omega) h

theorem pagesOf_dropLast_aux (psize : Nat) (hp : psize ≠ 0) :
    ∀ (n : Nat) (rows : List Rec) (p : List Rec), rows.length ≤ n →
      p ∈ (pagesOf psize rows).dropLast → p.length = psize := by
  intro n
  induction n with
  | zero =>
      intro rows p hr hm
      have hnil : rows = [] := List.eq_nil_of_length_eq_zero (Nat.le_zero.mp hr)
      rw [hnil, pagesOf_nil] at hm
      cases hm
  | succ n ih =>
      intro rows p hr hm
      by_cases hrow : rows = []
      · rw [hrow, pagesOf_nil] at hm
        cases hm
      · rw [pagesOf_cons psize rows hp hrow] at hm
        cases htail : pagesOf psize (rows.drop psize) with
        | nil =>
            rw [htail] at hm
            cases hm
        | cons q qs =>
            rw [htail, List.dropLast_cons₂] at hm
            rcases List.mem_cons.mp hm with h | h
            · subst h
              have hdrop : rows.drop psize ≠ [] := by
                intro hd
                rw [hd, pagesOf_nil] at htail
                cases htail
              have hlt : psize < rows.length := by
                have hld : (rows.drop psize).length ≠ 0 := fun h0 =>
                  hdrop (List.eq_nil_of_length_eq_zero h0)
                simp only [List.length_drop] at hld
                omega
              simp only [List.length_take]
              omega
            · rw [← htail] at h
              exact ih (rows.drop psize) p
                (by simp only [List.length_drop]; omega) h

theorem foldl_pageStep_spec (accept : Doc → Bool) :
    ∀ (pgs : List (List Doc)) (m0 : StateMap) (off0 : Nat)
      (sink0 : List Doc) (logs0 : List (List Doc)),
      getState m0 srowsKey (Val.vNat 0) = Val.vNat off0 →
      ((pgs.foldl (pageStep accept) ⟨m0, off0, sink0, logs0⟩).offset
          = off0 + pgs.flatten.length
        ∧ getState (pgs.foldl (pageStep accept) ⟨m0, off0, sink0, logs0⟩).m
            srowsKey (Val.vNat 0)
          = Val.vNat (off0 + pgs.flatten.length)
        ∧ (∀ k, k ≠ srowsKey →
            stateLookup
                (pgs.foldl (pageStep accept) ⟨m0, off0, sink0, logs0⟩).m k
              = stateLookup m0 k)
        ∧ (pgs.foldl (pageStep accept) ⟨m0, off0, sink0, logs0⟩).sink
          = sink0 ++ pgs.flatten.filter accept
        ∧ (pgs.foldl (pageStep accept) ⟨m0, off0, sink0, logs0⟩).logs
          = logs0 ++ pgs.filterMap (pageErrs accept)) := by
  intro pgs
  induction pgs with
  | nil =>
      intro m0 off0 sink0 logs0 h0
      exact ⟨by simp, by simpa using h0, fun k _ => rfl, by simp, by simp⟩
  | cons p t ih =>
      intro m0 off0 sink0 logs0 h0
      simp only [List.foldl_cons]
      have hstep : pageStep accept ⟨m0, off0, sink0, logs0⟩ p
          = ⟨setState m0 srowsKey (Val.vNat (off0 + p.length)),
             off0 + p.length,
             sink0 ++ p.filter accept,
             logs0 ++ ((pageErrs accept p).toList)⟩ := by
        simp only [pageStep, bulkWrite, bulkIndex, pageErrs]
        split
        · simp
        · simp
      rw [hstep]
      have h0' : getState (setState m0 srowsKey (Val.vNat (off0 + p.length)))
          srowsKey (Val.vNat 0) = Val.vNat (off0 + p.length) := by
        simp [getState, stateLookup_setState_self]
      obtain ⟨c1, c2, c3, c4, c5⟩ := ih _ _ _ _ h0'
      refine ⟨?_, ?_, ?_, ?_, ?_⟩
      · rw [c1]
        simp only [List.flatten_cons, List.length_append]
        omega
      · rw [c2]
        congr 1
        simp only [List.flatten_cons, List.length_append]
        omega
      · intro k hk
        rw [c3 k hk, stateLookup_setState_other _ _ _ _ hk]
      · rw [c4]
        simp [List.flatten_cons, List.filter_append]
      · rw [c5]
        rw [List.filterMap_cons]
        cases hE : pageErrs accept p with
        | none => simp
        | some e => simp

theorem pagesOf_eq_nil_iff (psize : Nat) (rows : List Rec) (hp : psize ≠ 0) :
    pagesOf psize rows = [] ↔ rows = [] := by
  constructor
  · intro h
    by_contra hrow
    rw [pagesOf_cons psize rows hp hrow] at h
    cases h
  · intro h
    rw [h, pagesOf_nil]

theorem getState_congr (m m' : StateMap) (k : String) (d : Val)
    (h : stateLookup m' k = stateLookup m k) :
    getState m' k d = getState m k d := by
  simp [getState, h]

theorem flatten_take_split (pgs : List (List Doc)) (N : Nat) :
    (pgs.take N).flatten
        = pgs.flatten.take ((pgs.take N).flatten.length)
      ∧ (pgs.drop N).flatten
        = pgs.flatten.drop ((pgs.take N).flatten.length) := by
  have h : pgs.flatten = (pgs.take N).flatten ++ (pgs.drop N).flatten := by
    rw [← List.flatten_append, List.take_append_drop]
  constructor
  · rw [h, List.take_left]
  · rw [h, List.drop_left]

theorem postgresToEs_eq (psize : Nat) (source : Nat → List Rec)
    (mapper : Rec → Doc) (accept : Doc → Bool) (now : Nat) (m0 : StateMap)
    (sink0 : List Doc) (t0 off0 : Nat)
    (hdt : getState m0 sdtKey (Val.vStr dtMin) = Val.vStr t0)
    (hoff : getState m0 srowsKey (Val.vNat 0) = Val.vNat off0) :
    postgresToEs psize source mapper accept now m0 sink0
      = some ⟨popState (setState ((postgreDbRun psize off0 mapper
            (source t0)).foldl (pageStep accept)
            ⟨m0, off0, sink0, []⟩).m sdtKey (Val.vStr now)) srowsKey,
          ((postgreDbRun psize off0 mapper (source t0)).foldl
            (pageStep accept) ⟨m0, off0, sink0, []⟩).sink,
          ((postgreDbRun psize off0 mapper (source t0)).foldl
            (pageStep accept) ⟨m0, off0, sink0, []⟩).logs,
          postgreDbRun psize off0 mapper (source t0)⟩ := by
  unfold postgresToEs
  rw [hdt, hoff]
  rfl

theorem postgresToEsInterrupted_eq (psize : Nat) (source : Nat → List Rec)
    (mapper : Rec → Doc) (accept : Doc → Bool) (m0 : StateMap)
    (sink0 : List Doc) (N : Nat) (t0 off0 : Nat)
    (hdt : getState m0 sdtKey (Val.vStr dtMin) = Val.vStr t0)
    (hoff : getState m0 srowsKey (Val.vNat 0) = Val.vNat off0) :
    postgresToEsInterrupted psize source mapper accept m0 sink0 N
      = some ⟨(((postgreDbRun psize off0 mapper (source t0)).take N).foldl
            (pageStep accept) ⟨m0, off0, sink0, []⟩).m,
          (((postgreDbRun psize off0 mapper (source t0)).take N).foldl
            (pageStep accept) ⟨m0, off0, sink0, []⟩).sink,
          (((postgreDbRun psize off0 mapper (source t0)).take N).foldl
            (pageStep accept) ⟨m0, off0, sink0, []⟩).logs,
          (postgreDbRun psize off0 mapper (source t0)).take N⟩ := by
  unfold postgresToEsInterrupted
  rw [hdt, hoff]
  rfl

/-- C8: the extractor skips exactly `offset` rows before the first fetch
(the yielded pages exactly cover the mapped remainder of the filtered,
ordered result set, in order), every yielded page has at most `psize`
records and is non-empty, every page before the last has exactly `psize`
records, and the page sequence is empty exactly when the remainder is
empty - a fetch returning zero rows is what ends the sequence. -/
theorem extractor_paging (psize offset : Nat) (mapper : Rec → Doc)
    (rows : List Rec) (hp : psize ≠ 0) :
    (postgreDbRun psize offset mapper rows).flatten
        = (rows.drop offset).map mapper
      ∧ (∀ p ∈ postgreDbRun psize offset mapper rows,
          p.length ≤ psize ∧ p ≠ [])
      ∧ (∀ p ∈ (postgreDbRun psize offset mapper rows).dropLast,
          p.length = psize)
      ∧ (postgreDbRun psize offset mapper rows = []
          ↔ rows.drop offset = []) := by
  refine ⟨?_, ?_, ?_, ?_⟩
  · rw [postgreDbRun, readData, ← List.map_flatten,
      pagesOf_flatten psize hp]
  · intro p hm
    rw [postgreDbRun, readData] at hm
    obtain ⟨q, hq, rfl⟩ := List.mem_map.mp hm
    obtain ⟨h1, h2⟩ := pagesOf_mem_aux psize hp (rows.drop offset).length
      (rows.drop offset) q le_rfl hq
    exact ⟨by simpa using h1, by simpa using h2⟩
  · intro p hm
    rw [postgreDbRun, readData, ← List.map_dropLast] at hm
    obtain ⟨q, hq, rfl⟩ := List.mem_map.mp hm
    have hlen := pagesOf_dropLast_aux psize hp (rows.drop offset).length
      (rows.drop offset) q le_rfl hq
    simpa using hlen
  · rw [postgreDbRun, readData]
    constructor
    · intro h
      exact (pagesOf_eq_nil_iff psize _ hp).mp (List.map_eq_nil_iff.mp h)
    · intro h
      rw [h, pagesOf_nil]
      rfl

/-- C6: a run that drains with no error persists exactly the run start
capture (`query_time = dt.utcnow()`, taken before the extraction query is
issued, never the clock at completion) as the new `saved_dt`, removes the
offset key, and - the previous watermark being a capture of an earlier
clock reading - the persisted timestamp never decreases across a
completed run. -/
theorem watermark_monotonic (psize : Nat) (source : Nat → List Rec)
    (mapper : Rec → Doc) (accept : Doc → Bool) (now : Nat) (m0 : StateMap)
    (sink0 : List Doc) (t0 off0 : Nat)
    (hdt : getState m0 sdtKey (Val.vStr dtMin) = Val.vStr t0)
    (hoff : getState m0 srowsKey (Val.vNat 0) = Val.vNat off0)
    (hclock : t0 ≤ now) :
    ∃ out : RunResult Doc,
      postgresToEs psize source mapper accept now m0 sink0 = some out
        ∧ (∃ t1, stateLookup out.finalState sdtKey = some (Val.vStr t1)
            ∧ t1 = now ∧ t0 ≤ t1)
        ∧ stateLookup out.finalState srowsKey = none := by
  refine ⟨_, postgresToEs_eq psize source mapper accept now m0 sink0 t0 off0
    hdt hoff, ⟨now, ?_, rfl, hclock⟩, ?_⟩
  · rw [stateLookup_popState_other _ srowsKey sdtKey sdtKey_ne_srowsKey,
      stateLookup_setState_self]
  · exact stateLookup_popState_self _ srowsKey

/-- C9: per-document sink rejections are reported, never raised: the run
processes every page whatever the sink's verdict (the sent pages are
independent of it), the sink receives exactly the accepted documents of
every page, the non-empty per-page failure lists are logged in order,
and after each checkpointed page the persisted offset has advanced past
the entire page, rejected documents included. -/
theorem bulk_failures_tolerated (psize : Nat) (source : Nat → List Rec)
    (mapper : Rec → Doc) (accept : Doc → Bool) (now : Nat) (m0 : StateMap)
    (sink0 : List Doc) (t0 off0 : Nat)
    (hdt : getState m0 sdtKey (Val.vStr dtMin) = Val.vStr t0)
    (hoff : getState m0 srowsKey (Val.vNat 0) = Val.vNat off0) :
    (∃ out : RunResult Doc,
        postgresToEs psize source mapper accept now m0 sink0 = some out
          ∧ out.sentPages = postgreDbRun psize off0 mapper (source t0)
          ∧ out.sink = sink0 ++ out.sentPages.flatten.filter accept
          ∧ out.logs = out.sentPages.filterMap (pageErrs accept)
          ∧ stateLookup out.finalState srowsKey = none)
      ∧ (∀ N, ∃ outN : RunResult Doc,
          postgresToEsInterrupted psize source mapper accept m0 sink0 N
              = some outN
            ∧ getState outN.finalState srowsKey (Val.vNat 0)
              = Val.vNat (off0 + outN.sentPages.flatten.length)
            ∧ outN.sink = sink0 ++ outN.sentPages.flatten.filter accept
            ∧ outN.logs = outN.sentPages.filterMap (pageErrs accept)) := by
  constructor
  · obtain ⟨c1, c2, c3, c4, c5⟩ := foldl_pageStep_spec accept
      (postgreDbRun psize off0 mapper (source t0)) m0 off0 sink0 [] hoff
    refine ⟨_, postgresToEs_eq psize source mapper accept now m0 sink0 t0 off0
      hdt hoff, rfl, c4, ?_, ?_⟩
    · simpa using c5
    · exact stateLookup_popState_self _ srowsKey
  · intro N
    obtain ⟨c1, c2, c3, c4, c5⟩ := foldl_pageStep_spec accept
      ((postgreDbRun psize off0 mapper (source t0)).take N) m0 off0 sink0 []
      hoff
    refine ⟨_, postgresToEsInterrupted_eq psize source mapper accept m0 sink0
      N t0 off0 hdt hoff, c2, c4, ?_⟩
    simpa using c5

/-- C1: resume correctness.  A run from checkpoint `m0` interrupted after
`N` pages have been checkpointed leaves the watermark timestamp
untouched and the count of delivered rows persisted as the offset;
re-invoking the process reads both back from the durable checkpoint,
skips exactly that many rows of the same filtered, ordered result set,
and delivers precisely the remaining records: the interrupted run
delivered a prefix of the mapped result-set remainder, the resumed run
delivers exactly the rest, and their concatenation is the whole - no
record is skipped and the delivered prefix is not redelivered. -/
theorem resume_exactly_once (psize N : Nat) (source : Nat → List Rec)
    (mapper : Rec → Doc) (accept : Doc → Bool) (now : Nat) (m0 : StateMap)
    (sink0 sink1 : List Doc) (t0 off0 : Nat)
    (hp : psize ≠ 0)
    (hdt : getState m0 sdtKey (Val.vStr dtMin) = Val.vStr t0)
    (hoff : getState m0 srowsKey (Val.vNat 0) = Val.vNat off0) :
    ∃ (out1 out2 : RunResult Doc) (l : Nat),
      postgresToEsInterrupted psize source mapper accept m0 sink0 N
          = some out1
        ∧ postgresToEs psize source mapper accept now out1.finalState sink1
          = some out2
        ∧ stateLookup out1.finalState sdtKey = stateLookup m0 sdtKey
        ∧ l = out1.sentPages.flatten.length
        ∧ getState out1.finalState srowsKey (Val.vNat 0)
          = Val.vNat (off0 + l)
        ∧ out1.sentPages.flatten
          = (((source t0).drop off0).map mapper).take l
        ∧ out2.sentPages.flatten
          = (((source t0).drop off0).map mapper).drop l
        ∧ out1.sentPages.flatten ++ out2.sentPages.flatten
          = ((source t0).drop off0).map mapper := by
  obtain ⟨c1, c2, c3, c4, c5⟩ := foldl_pageStep_spec accept
    ((postgreDbRun psize off0 mapper (source t0)).take N) m0 off0 sink0 []
    hoff
  have hdt1 : getState (((postgreDbRun psize off0 mapper
      (source t0)).take N).foldl (pageStep accept)
      ⟨m0, off0, sink0, []⟩).m sdtKey (Val.vStr dtMin) = Val.vStr t0 := by
    rw [getState_congr m0 _ sdtKey _ (c3 sdtKey sdtKey_ne_srowsKey)]
    exact hdt
  have hmapflat :
      ((postgreDbRun psize off0 mapper (source t0)).take N).flatten
        = ((pagesOf psize ((source t0).drop off0)).take N).flatten.map
            mapper := by
    rw [postgreDbRun, readData, ← List.map_take, ← List.map_flatten]
  have hlen :
      ((postgreDbRun psize off0 mapper (source t0)).take N).flatten.length
        = ((pagesOf psize
            ((source t0).drop off0)).take N).flatten.length := by
    rw [hmapflat, List.length_map]
  have hpre := (flatten_take_split (pagesOf psize ((source t0).drop off0))
    N).1
  have hPflat := pagesOf_flatten psize hp ((source t0).drop off0)
  have h5 : ((postgreDbRun psize off0 mapper (source t0)).take N).flatten
      = (((source t0).drop off0).map mapper).take
          ((pagesOf psize ((source t0).drop off0)).take N).flatten.length := by
    rw [hmapflat]
    conv_lhs => rw [hpre, hPflat]
    exact List.map_take mapper ((source t0).drop off0)
      ((pagesOf psize ((source t0).drop off0)).take N).flatten.length
  have h6 : (postgreDbRun psize
      (off0 + ((postgreDbRun psize off0 mapper
        (source t0)).take N).flatten.length)
      mapper (source t0)).flatten
      = (((source t0).drop off0).map mapper).drop
          ((pagesOf psize ((source t0).drop off0)).take N).flatten.length := by
    rw [postgreDbRun, readData, ← List.map_flatten, pagesOf_flatten psize hp,
      hlen, ← List.drop_drop, List.map_drop]
  refine ⟨_, _, _,
    postgresToEsInterrupted_eq psize source mapper accept m0 sink0 N t0 off0
      hdt hoff,
    postgresToEs_eq psize source mapper accept now _ sink1 t0
      (off0 + ((postgreDbRun psize off0 mapper
        (source t0)).take N).flatten.length)
      hdt1 c2,
    c3 sdtKey sdtKey_ne_srowsKey,
    hlen.symm, ?_, h5, h6, ?_⟩
  · rw [← hlen]
    exact c2
  · show ((postgreDbRun psize off0 mapper (source t0)).take N).flatten
        ++ (postgreDbRun psize
            (off0 + ((postgreDbRun psize off0 mapper
              (source t0)).take N).flatten.length)
            mapper (source t0)).flatten
      = ((source t0).drop off0).map mapper
    rw [h6, h5, List.take_append_drop]

end Pipeline

/-- Witness for `resume_exactly_once`: a five-record source, page size 2,
interruption after one checkpointed page, resumed from the produced
checkpoint. -/
theorem resume_exactly_once_witness :
    ∃ (out1 out2 : RunResult Nat) (l : Nat),
      postgresToEsInterrupted 2 (fun _ => [1, 2, 3, 4, 5]) id
          (fun _ => true) [] [] 1 = some out1
        ∧ postgresToEs 2 (fun _ => [1, 2, 3, 4, 5]) id (fun _ => true) 9
            out1.finalState [] = some out2
        ∧ stateLookup out1.finalState sdtKey = stateLookup [] sdtKey
        ∧ l = out1.sentPages.flatten.length
        ∧ getState out1.finalState srowsKey (Val.vNat 0)
          = Val.vNat (0 + l)
        ∧ out1.sentPages.flatten
          = (([1, 2, 3, 4, 5].drop 0).map id).take l
        ∧ out2.sentPages.flatten
          = (([1, 2, 3, 4, 5].drop 0).map id).drop l
        ∧ out1.sentPages.flatten ++ out2.sentPages.flatten
          = ([1, 2, 3, 4, 5].drop 0).map id :=
  resume_exactly_once 2 1 (fun _ => [1, 2, 3, 4, 5]) id (fun _ => true) 9
    [] [] [] 0 0 (by decide) rfl rfl

/-- Witness for `extractor_paging` at page size 2, offset 1, a
five-record result set. -/
theorem extractor_paging_witness :
    (postgreDbRun 2 1 Nat.succ [10, 20, 30, 40, 50]).flatten
      = ([10, 20, 30, 40, 50].drop 1).map Nat.succ :=
  (extractor_paging 2 1 Nat.succ [10, 20, 30, 40, 50] (by decide)).1

/-- Witness for `watermark_monotonic`: an empty source and the empty
initial checkpoint; the run completes and persists `saved_dt = 3`. -/
theorem watermark_monotonic_witness :
    ∃ out : RunResult Nat,
      postgresToEs 1 (fun _ => ([] : List Nat)) id (fun _ => true) 3 [] []
          = some out
        ∧ (∃ t1, stateLookup out.finalState sdtKey = some (Val.vStr t1)
            ∧ t1 = 3 ∧ 0 ≤ t1)
        ∧ stateLookup out.finalState srowsKey = none :=
  watermark_monotonic 1 (fun _ => []) id (fun _ => true) 3 [] [] 0 0 rfl rfl
    (by omega)

/-- Witness for `bulk_failures_tolerated`: a five-record source, page
size 2, a sink rejecting odd documents, starting from the empty
checkpoint. -/
theorem bulk_failures_tolerated_witness :
    ∃ out : RunResult Nat,
      postgresToEs 2 (fun _ => [1, 2, 3, 4, 5]) id (fun d => d % 2 == 0) 9
          [] [] = some out
        ∧ out.sentPages = postgreDbRun 2 0 id [1, 2, 3, 4, 5]
        ∧ out.sink = [] ++ out.sentPages.flatten.filter (fun d => d % 2 == 0)
        ∧ out.logs = out.sentPages.filterMap (pageErrs (fun d => d % 2 == 0))
        ∧ stateLookup out.finalState srowsKey = none :=
  (bulk_failures_tolerated 2 (fun _ => [1, 2, 3, 4, 5]) id
    (fun d => d % 2 == 0) 9 [] [] 0 0 rfl rfl).1

/-- C2, counterexample: completing a run from the durable checkpoint
`{saved_rows: 100}` with captured run start time `5` persists an
intermediate checkpoint document in which the new timestamp is already
saved while the old offset key is still present - contradicting the claim
that the finalization is one persisted update after which no such durable
state ever exists. -/
theorem complete_run_not_one_update :
    ∃ s ∈ completionSaves [(srowsKey, Val.vNat 100)] 5,
      stateLookup s sdtKey = some (Val.vStr 5)
        ∧ stateLookup s srowsKey = some (Val.vNat 100) := by
  decide

/-- C2, amended: run completion performs two separate persisted updates,
not one.  The first (`state.set_state(start_datetime_key, ...)`) sets
`saved_dt` to the captured run start time while leaving the in-progress
offset key untouched, so a durable intermediate state with the new
timestamp alongside the old offset exists; the second
(`state.clear_state(offset_key)`) removes the offset key.  The final
durable state carries the new timestamp and no offset key, and the
reverse anomaly (offset cleared while the timestamp is still old) never
occurs durably. -/
theorem complete_run_two_updates (m : StateMap) (qt : Nat) :
    ∃ m1 m2, completionSaves m qt = [m1, m2]
      ∧ stateLookup m1 sdtKey = some (Val.vStr qt)
      ∧ stateLookup m1 srowsKey = stateLookup m srowsKey
      ∧ stateLookup m2 sdtKey = some (Val.vStr qt)
      ∧ stateLookup m2 srowsKey = none := by
  refine ⟨_, _, rfl, ?_, ?_, ?_, ?_⟩
  · exact stateLookup_setState_self m sdtKey (Val.vStr qt)
  · exact stateLookup_setState_other m sdtKey srowsKey (Val.vStr qt)
      (Ne.symm sdtKey_ne_srowsKey)
  · rw [stateLookup_popState_other _ srowsKey sdtKey sdtKey_ne_srowsKey]
    exact stateLookup_setState_self m sdtKey (Val.vStr qt)
  · exact stateLookup_popState_self _ srowsKey

/-- C3, counterexample: saving the checkpoint `{saved_dt: 7}` over the
previously durable `{saved_dt: 3}`, interrupted after the first primitive
step (the truncation done by `open(path, 'w')`), leaves a durable file
that is neither the old document nor the new one, and a subsequent load
returns the empty mapping instead of the previously durable state -
contradicting the claim that a failed or interrupted save either replaces
the blob completely or leaves the previous durable state intact. -/
theorem save_state_truncates :
    durableAfterSave (FileState.valid [(sdtKey, Val.vStr 3)])
        [(sdtKey, Val.vStr 7)] 1
      ≠ FileState.valid [(sdtKey, Val.vStr 3)]
    ∧ durableAfterSave (FileState.valid [(sdtKey, Val.vStr 3)])
        [(sdtKey, Val.vStr 7)] 1
      ≠ FileState.valid [(sdtKey, Val.vStr 7)]
    ∧ retrieveState (durableAfterSave (FileState.valid [(sdtKey, Val.vStr 3)])
        [(sdtKey, Val.vStr 7)] 1) = [] := by
  decide

/-- C3, amended: `save_state` is truncate-then-write in place, not an
atomic whole-document replacement.  A save interrupted before its first
step leaves the old durable state; one interrupted between the truncation
and the write leaves an empty (corrupt) file, which a subsequent load
treats as "no checkpoint" and reads as the empty mapping, losing the
previously durable state; only a save whose two steps both complete
yields exactly the new whole document. -/
theorem save_state_step_semantics (old : FileState) (s : StateMap) :
    durableAfterSave old s 0 = old
    ∧ durableAfterSave old s 1 = FileState.corrupt ""
    ∧ retrieveState (durableAfterSave old s 1) = []
    ∧ durableAfterSave old s 2 = FileState.valid s :=
  ⟨rfl, rfl, rfl, rfl⟩

/-- C7: checkpoint load is total - `retrieve_state` is a total function
of the file state; on a valid checkpoint it returns the stored mapping,
and on every failure state (file absent, unreadable, or content rejected
by `json.load`) it returns the empty mapping, from which `main.py` reads
the zero watermark `(datetime.min, 0)` instead of failing. -/
theorem checkpoint_load_total (fs : FileState) :
    (∀ m, fs = FileState.valid m → retrieveState fs = m)
    ∧ ((fs = FileState.absent ∨ fs = FileState.unreadable
          ∨ ∃ c, fs = FileState.corrupt c) →
        retrieveState fs = [] ∧ loadWatermark fs = some (dtMin, 0)) := by
  constructor
  · rintro m rfl
    rfl
  · rintro (rfl | rfl | ⟨c, rfl⟩) <;> exact ⟨rfl, rfl⟩

/-- Witness for `checkpoint_load_total` at a concrete corrupt file. -/
theorem checkpoint_load_total_witness :
    retrieveState (FileState.corrupt "not json") = []
      ∧ loadWatermark (FileState.corrupt "not json") = some (dtMin, 0) :=
  (checkpoint_load_total (FileState.corrupt "not json")).2
    (Or.inr (Or.inr ⟨"not json", rfl⟩))

theorem backoffLoop_append_fail (func : Nat → Except PyErr PyVal)
    (l1 l2 : List Nat)
    (hfail : ∀ i ∈ l1, (∃ c, func i = Except.error (PyErr.psycopg c))
      ∧ i ≠ maxRetries) :
    (backoffLoop func (l1 ++ l2)).result = (backoffLoop func l2).result := by
  induction l1 with
  | nil => simp
  | cons a t ih =>
      obtain ⟨⟨c, hc⟩, hne⟩ := hfail a (List.mem_cons_self a t)
      have ih' := ih (fun i hi => hfail i (List.mem_cons_of_mem a hi))
      simp only [List.cons_append, backoffLoop, hc, hne, if_false]
      exact ih'

/-- C10: the `wrapper` inside `backoff` never returns the wrapped
function's value - its body has no `return`, so whenever the wrapped call
eventually succeeds (after zero or more `psycopg2` failures within the
retry budget), the wrapper returns Python `None`, and in particular never
the non-`None` value the wrapped function produced. -/
theorem backoff_discards_result (func : Nat → Except PyErr PyVal)
    (j : Nat) (v : PyVal) (hj : j ≤ maxRetries) (hs : func j = Except.ok v)
    (hbefore : ∀ i, i < j → ∃ c, func i = Except.error (PyErr.psycopg c)) :
    (backoffWrapper func).result = Except.ok PyVal.none
      ∧ (v ≠ PyVal.none → (backoffWrapper func).result ≠ Except.ok v) := by
  have hsplit : List.range (maxRetries + 1)
      = List.range j ++ (List.range (maxRetries + 1 - j)).map (j + ·) := by
    rw [← List.range_add]
    congr 1
    simp only [maxRetries] at hj ⊢
    omega
  have hone : maxRetries + 1 - j = (maxRetries - j) + 1 := by
    simp only [maxRetries] at hj ⊢
    omega
  have hrest : (List.range (maxRetries + 1 - j)).map (j + ·)
      = j :: ((List.range (maxRetries - j)).map Nat.succ).map (j + ·) := by
    rw [hone, List.range_succ_eq_map]
    simp
  have hres : (backoffWrapper func).result = Except.ok PyVal.none := by
    rw [backoffWrapper, hsplit, hrest]
    rw [backoffLoop_append_fail func (List.range j) _ (fun i hi => by
      have hij : i < j := List.mem_range.mp hi
      refine ⟨hbefore i hij, ?_⟩
      simp only [maxRetries] at hj ⊢
      omega)]
    simp [backoffLoop, hs]
  refine ⟨hres, fun hv hcontra => hv ?_⟩
  rw [hres] at hcontra
  injection hcontra with h2
  exact h2.symm

/-- Witness for `backoff_discards_result`: one `psycopg2` failure, then a
success returning the non-`None` value `7`; the wrapper returns `None`. -/
theorem backoff_discards_result_witness :
    (backoffWrapper (fun i => if i = 0 then Except.error (PyErr.psycopg 1)
        else Except.ok (PyVal.pnat 7))).result = Except.ok PyVal.none :=
  (backoff_discards_result
    (fun i => if i = 0 then Except.error (PyErr.psycopg 1)
      else Except.ok (PyVal.pnat 7))
    1 (PyVal.pnat 7) (by decide) rfl
    (fun i hi => ⟨1, by
      have h0 : i = 0 := by omega
      subst h0
      rfl⟩)).1

/-- C5: with `initial_backoff = 2` and `max_backoff = 600`, when every
invocation fails with the same `psycopg2` error, the wrapper sleeps
exactly ten times, the delay before retry attempt `k` (`1 ≤ k ≤ 10`)
being `min 600 (2 * 2 ^ (k - 1))`, and after the tenth failed retry the
error is re-raised unchanged to the caller. -/
theorem backoff_bounds (c : Nat) (func : Nat → Except PyErr PyVal)
    (hf : ∀ k, k ≤ maxRetries → func k = Except.error (PyErr.psycopg c)) :
    (backoffWrapper func).sleeps
        = (List.range 10).map (fun i => min 600 (2 * 2 ^ i))
      ∧ (∀ k, 1 ≤ k → k ≤ 10 →
          (backoffWrapper func).sleeps[k - 1]?
            = some (min 600 (2 * 2 ^ (k - 1))))
      ∧ (backoffWrapper func).result = Except.error (PyErr.psycopg c) := by
  have hw : backoffWrapper func
      = ⟨[2, 4, 8, 16, 32, 64, 128, 256, 512, 600], 11,
         Except.error (PyErr.psycopg c)⟩ := by
    have hrange : List.range (maxRetries + 1)
        = [0, 1, 2, 3, 4, 5, 6, 7, 8, 9, 10] := by decide
    rw [backoffWrapper, hrange]
    simp only [backoffLoop, hf 0 (by decide), hf 1 (by decide),
      hf 2 (by decide), hf 3 (by decide), hf 4 (by decide),
      hf 5 (by decide), hf 6 (by decide), hf 7 (by decide),
      hf 8 (by decide), hf 9 (by decide), hf 10 (by decide)]
    norm_num [maxRetries, sleepFor, initialBackoff, maxBackoff]
  refine ⟨?_, ?_, by rw [hw]⟩
  · rw [hw]
    show [2, 4, 8, 16, 32, 64, 128, 256, 512, 600]
        = (List.range 10).map (fun i => min 600 (2 * 2 ^ i))
    decide
  · intro k h1 h2
    rw [hw]
    show [2, 4, 8, 16, 32, 64, 128, 256, 512, 600][k - 1]?
        = some (min 600 (2 * 2 ^ (k - 1)))
    interval_cases k <;> decide

/-- Witness for `backoff_bounds` with every attempt failing with
`psycopg2` error code `3`. -/
theorem backoff_bounds_witness :
    (backoffWrapper (fun _ => Except.error (PyErr.psycopg 3))).sleeps
        = (List.range 10).map (fun i => min 600 (2 * 2 ^ i))
      ∧ (backoffWrapper (fun _ => Except.error (PyErr.psycopg 3))).result
        = Except.error (PyErr.psycopg 3) := by
  have h := backoff_bounds 3 (fun _ => Except.error (PyErr.psycopg 3))
    (fun k _ => rfl)
  exact ⟨h.1, h.2.2⟩

/-- C4, counterexample: with the first invocation of the connect-and-run
body failing mid-run (a `psycopg2` error raised after the connection
phase, e.g. during a page fetch) and the second invocation succeeding,
the decorated `establish_connection` swallows the error, sleeps once and
re-runs the whole body within the same process invocation: the wrapped
function is called twice and no error reaches the caller - contradicting
the claim that a mid-run source error propagates to the caller as a
fatal run failure without a silent restart. -/
theorem midrun_error_retried :
    (backoffWrapper (establishConnectionCall midRunRetryWorld)).result
        = Except.ok PyVal.none
      ∧ (backoffWrapper (establishConnectionCall midRunRetryWorld)).calls = 2
      ∧ (backoffWrapper (establishConnectionCall midRunRetryWorld)).sleeps
        = [2] := by
  decide

/-- C4, amended: the backoff policy wraps the whole connect-and-run body
and its `except` clause catches `psycopg2.Error` regardless of the phase
that raised it: a mid-run source error is retried like a connect failure,
re-invoking the entire body (which reloads the checkpoint) within the
same process invocation, so it does not propagate when a later attempt
succeeds; only an exception outside the `psycopg2.Error` family raised
mid-run propagates immediately as a fatal failure without any retry. -/
theorem midrun_error_policy (c : Nat) (w : Nat → Phase)
    (h0 : w 0 = Phase.midRunFail (PyErr.psycopg c))
    (hk : ∀ k, 1 ≤ k → w k = Phase.success) :
    ((backoffWrapper (establishConnectionCall w)).result
        = Except.ok PyVal.none
      ∧ (backoffWrapper (establishConnectionCall w)).calls = 2
      ∧ (backoffWrapper (establishConnectionCall w)).sleeps = [2])
    ∧ (∀ (w2 : Nat → Phase) (e : Nat),
        w2 0 = Phase.midRunFail (PyErr.otherExc e) →
        (backoffWrapper (establishConnectionCall w2)).result
            = Except.error (PyErr.otherExc e)
          ∧ (backoffWrapper (establishConnectionCall w2)).calls = 1
          ∧ (backoffWrapper (establishConnectionCall w2)).sleeps = []) := by
  have hrange : List.range (maxRetries + 1)
      = [0, 1, 2, 3, 4, 5, 6, 7, 8, 9, 10] := by decide
  constructor
  · have hc0 : establishConnectionCall w 0
        = Except.error (PyErr.psycopg c) := by
      simp [establishConnectionCall, h0]
    have hc1 : establishConnectionCall w 1 = Except.ok PyVal.none := by
      simp [establishConnectionCall, hk 1 (le_refl 1)]
    rw [backoffWrapper, hrange]
    simp only [backoffLoop, hc0, hc1]
    norm_num [maxRetries, sleepFor, initialBackoff, maxBackoff]
  · intro w2 e h2
    have hc0 : establishConnectionCall w2 0
        = Except.error (PyErr.otherExc e) := by
      simp [establishConnectionCall, h2]
    rw [backoffWrapper, hrange]
    simp only [backoffLoop, hc0]
    norm_num

/-- Witness for `midrun_error_policy` on the concrete world
`midRunRetryWorld`. -/
theorem midrun_error_policy_witness :
    (backoffWrapper (establishConnectionCall midRunRetryWorld)).result
      = Except.ok PyVal.none :=
  (midrun_error_policy 7 midRunRetryWorld rfl
    (fun k hk => by
      simp only [midRunRetryWorld]
      rw [if_neg (by omega)])).1.1

end Etl
